import Mathlib

/-
  Verification development for the messenger repository (src/src/Controller.ts).

  The Controller class wires a browser RTCPeerConnection, a data channel and two
  DOM elements into a manual-signaling WebRTC chat loop.  This file gives a
  shallow embedding of the controller:

  * JavaScript strings are modelled as Lean String (sequences of scalar values);
    btoa's Latin-1 restriction is modelled by an explicit check that every
    character code is below 256.
  * The external browser primitives JSON.stringify / JSON.parse are modelled for
    the JSON fragment the payload wire format uses (strings, arrays, objects);
    btoa / atob are modelled as base64 over the character codes.  atob here
    requires canonical padding and does not strip whitespace (the inputs the
    claims exercise contain none).  JSON.parse resolves duplicate object keys
    by letting the last occurrence win, as JavaScript does.
  * The peer connection is modelled by its observable interactions: the list of
    calls issued to it (PCCall), its iceGatheringState, and the stream of events
    it delivers (IceEvent).  RTCIceCandidate is an opaque external descriptor,
    modelled as a record holding its candidate string.  RTCSessionDescriptionInit
    is a record of its type tag ("offer" / "answer") and sdp string; the field
    is called stype because type is reserved in Lean.
  * The async flows (hostSession, joinSession, createSessionPayload together
    with waitForIceCandidates) are modelled as functions of the event stream the
    environment delivers while they are suspended; a flow that would suspend
    forever yields a stuck result, a thrown exception yields an error result.
  * TypeScript's unchecked cast in parseSessionPayload performs no validation;
    the model folds the subsequent field accesses (which would throw on a
    structurally alien value) into the decoding step, so a structurally invalid
    payload fails at decode time rather than at first field access.
-/

/-- The iceGatheringState values of a peer connection. -/
inductive GatheringState where
  | new
  | gathering
  | complete
deriving DecidableEq, Repr

/-- Opaque ICE candidate descriptor (external RTCIceCandidate). -/
structure IceCandidate where
  candidate : String
deriving DecidableEq, Repr

/-- RTCSessionDescriptionInit: a type tag ("offer" or "answer") plus sdp text. -/
structure SessionDesc where
  stype : String
  sdp : String
deriving DecidableEq, Repr

/-- The unit exchanged between peers: a session description plus the gathered
candidates, as packaged by createSessionPayload. -/
structure SessionPayload where
  session : SessionDesc
  iceCandidates : List IceCandidate
deriving DecidableEq, Repr

/-- Data channels are opaque handles; the model only needs their identity. -/
abbrev Channel := Nat

/-- Calls the controller issues to the peer connection, in order. -/
inductive PCCall where
  | createOffer (iceRestart : Bool)
  | createAnswer (iceRestart : Bool)
  | setLocalDescription (d : SessionDesc)
  | setRemoteDescription (d : SessionDesc)
  | addIceCandidate (c : IceCandidate)
deriving DecidableEq, Repr

/-- The mutable state of the Controller object together with the observable
state of its collaborators: the candidate buffer, the observed gathering state,
the active data channel, the set of channels carrying a message listener, the
messenger textarea log, the messages sent over channels, and the remote
candidates successfully added to the peer connection. -/
structure ControllerState where
  iceCandidates : List IceCandidate
  gatheringState : GatheringState
  dataChannel : Option Channel
  subscribedChannels : List Channel
  messages : List String
  sent : List (Channel × String)
  pcAddedCandidates : List IceCandidate
deriving DecidableEq, Repr

/-- State after the constructor: empty candidate buffer, the locally created
data channel (id 0) active and subscribed, textarea cleared. -/
def initController : ControllerState :=
  { iceCandidates := []
    gatheringState := .new
    dataChannel := some 0
    subscribedChannels := [0]
    messages := []
    sent := []
    pcAddedCandidates := [] }

/-- showMessage: append a line to the messenger textarea. -/
def showMessage (st : ControllerState) (message : String) : ControllerState :=
  { st with messages := st.messages ++ [message] }

/-- handleMessage: a received channel message is displayed. -/
def handleMessage (st : ControllerState) (data : String) : ControllerState :=
  showMessage st data

/-- Delivery of a message event on a channel: the handler fires only on
channels that carry the message listener. -/
def channelMessage (st : ControllerState) (ch : Channel) (data : String) :
    ControllerState :=
  if ch ∈ st.subscribedChannels then handleMessage st data else st

/-- sendMessage: transmit over the active data channel, if any. -/
def sendMessage (st : ControllerState) (value : String) : ControllerState :=
  match st.dataChannel with
  | some ch => { st with sent := st.sent ++ [(ch, value)] }
  | none => st

/-- handleDataChannel: the remote peer opened a channel; replace the active
channel reference and attach the message listener to the new channel.  The
listener on the previously subscribed channels is never removed. -/
def handleDataChannel (st : ControllerState) (ch : Channel) : ControllerState :=
  { st with
      dataChannel := some ch
      subscribedChannels := st.subscribedChannels ++ [ch] }

/-- Buffer action of the icecandidate handler: non-null candidates are pushed,
a null candidate (end of a gathering round) is ignored. -/
def pushCandidate (buf : List IceCandidate) : Option IceCandidate → List IceCandidate
  | none => buf
  | some c => buf ++ [c]

/-- handleIceCandidate: the candidate-discovery event handler. -/
def handleIceCandidate (st : ControllerState) (c : Option IceCandidate) :
    ControllerState :=
  { st with iceCandidates := pushCandidate st.iceCandidates c }

/-- Routing decision taken by handleInput / handleCommand for one input line. -/
inductive RouteAction where
  | hostA
  | joinA (payload : String)
  | sendA (msg : String)
  | invalidA (cmd : String)
  | noneA
deriving DecidableEq, Repr

/-- JavaScript's value.split(' '): split at every single space, keeping empty
fragments; the split of the empty string is one empty fragment. -/
def splitOnSpace : List Char → List (List Char)
  | [] => [[]]
  | c :: cs =>
    if c = ' ' then [] :: splitOnSpace cs
    else
      match splitOnSpace cs with
      | [] => [[c]]
      | h :: t => (c :: h) :: t

/-- JavaScript's args.join(' '). -/
def joinSpace : List (List Char) → List Char
  | [] => []
  | [x] => x
  | x :: xs => x ++ (' ' :: joinSpace xs)

/-- handleCommand: drop the leading marker, split on spaces, shift the command
token, and route; the remaining fragments are rejoined as the join payload.
Unknown tokens fall through to the invalid-command notice. -/
def handleCommand (value : String) : RouteAction :=
  match splitOnSpace (value.data.drop 1) with
  | [] => .invalidA ""
  | command :: args =>
    let cmd : String := ⟨command⟩
    if cmd = "host" then .hostA
    else if cmd = "join" then .joinA ⟨joinSpace args⟩
    else .invalidA cmd

/-- handleInput: the empty line is dropped, a line starting with the command
marker is dispatched as a command, anything else is sent as a chat message. -/
def handleInput (value : String) : RouteAction :=
  match value.data with
  | [] => .noneA
  | c :: _ => if c = '/' then handleCommand value else .sendA value

/-- The synchronous state effect of submitting one input line: a chat message
goes out over the active channel, an unknown command produces the visible
invalid-command line; host and join launch the asynchronous flows modelled
separately and have no synchronous state effect. -/
def handleInputSync (st : ControllerState) (value : String) : ControllerState :=
  match handleInput value with
  | .sendA m => sendMessage st m
  | .invalidA c => showMessage st ("Invalid Command: " ++ c)
  | _ => st

/-- Left and right curly brace characters, written via their codes. -/
def lbrace : Char := '\x7b'

def rbrace : Char := '\x7d'

mutual
/-- JSON values of the fragment the payload wire format uses: strings, arrays
and objects.  Arrays and object field lists are their own inductives so that
recursion and induction over the grammar stay structural. -/
inductive Json where
  | str : String → Json
  | arr : JsonArr → Json
  | obj : JsonObj → Json
inductive JsonArr where
  | nil : JsonArr
  | cons : Json → JsonArr → JsonArr
inductive JsonObj where
  | nil : JsonObj
  | cons : String → Json → JsonObj → JsonObj
end

/-- Lowercase hexadecimal digit, as JSON.stringify emits in escapes. -/
def hexDigitChar (n : Nat) : Char := "0123456789abcdef".data.getD n '0'

/-- JSON.stringify's escaping of one string character: quote and backslash get
a backslash escape, control characters get their short escape or a u-escape,
everything else is emitted verbatim. -/
def escapeChar (c : Char) : List Char :=
  if c = '"' then ['\\', '"']
  else if c = '\\' then ['\\', '\\']
  else if c.toNat < 32 then
    if c.toNat = 8 then ['\\', 'b']
    else if c.toNat = 9 then ['\\', 't']
    else if c.toNat = 10 then ['\\', 'n']
    else if c.toNat = 12 then ['\\', 'f']
    else if c.toNat = 13 then ['\\', 'r']
    else ['\\', 'u', '0', '0', hexDigitChar (c.toNat / 16), hexDigitChar (c.toNat % 16)]
  else [c]

def escapeList : List Char → List Char
  | [] => []
  | c :: cs => escapeChar c ++ escapeList cs

/-- A JSON string literal: quoted, escaped content. -/
def renderString (s : String) : List Char :=
  '"' :: (escapeList s.data ++ ['"'])

mutual
/-- JSON.stringify for the modelled fragment (no whitespace, fields and
elements in order, comma separated). -/
def renderJson : Json → List Char
  | .str s => renderString s
  | .arr xs => '[' :: (renderArr xs ++ [']'])
  | .obj fs => lbrace :: (renderObj fs ++ [rbrace])
def renderArr : JsonArr → List Char
  | .nil => []
  | .cons j .nil => renderJson j
  | .cons j tl => renderJson j ++ (',' :: renderArr tl)
def renderObj : JsonObj → List Char
  | .nil => []
  | .cons k v .nil => renderString k ++ (':' :: renderJson v)
  | .cons k v tl => renderString k ++ (':' :: (renderJson v ++ (',' :: renderObj tl)))
end

/-- JSON whitespace accepted between tokens. -/
def isJsonWs (c : Char) : Bool :=
  c = ' ' || c = '\n' || c = '\t' || c = '\r'

def skipWs : List Char → List Char
  | [] => []
  | c :: cs => if isJsonWs c then skipWs cs else c :: cs

/-- Value of one hexadecimal digit character. -/
def parseHex (c : Char) : Option Nat :=
  if '0' ≤ c ∧ c ≤ '9' then some (c.toNat - '0'.toNat)
  else if 'a' ≤ c ∧ c ≤ 'f' then some (c.toNat - 'a'.toNat + 10)
  else if 'A' ≤ c ∧ c ≤ 'F' then some (c.toNat - 'A'.toNat + 10)
  else none

/-- The single-character JSON string escapes. -/
def simpleEscape (e : Char) : Option Char :=
  if e = '"' then some '"'
  else if e = '\\' then some '\\'
  else if e = '/' then some '/'
  else if e = 'b' then some (Char.ofNat 8)
  else if e = 'f' then some (Char.ofNat 12)
  else if e = 'n' then some '\n'
  else if e = 'r' then some (Char.ofNat 13)
  else if e = 't' then some '\t'
  else none

mutual
/-- Parse the body of a JSON string literal after the opening quote, up to and
including the closing quote; raw control characters are rejected, escapes are
decoded. -/
def parseStringBody : List Char → Option (List Char × List Char)
  | [] => none
  | c :: rest =>
    if c = '"' then some ([], rest)
    else if c = '\\' then parseEscape rest
    else if c.toNat < 32 then none
    else
      match parseStringBody rest with
      | some (tl, rst) => some (c :: tl, rst)
      | none => none
/-- Parse what follows a backslash inside a JSON string literal. -/
def parseEscape : List Char → Option (List Char × List Char)
  | [] => none
  | e :: rest2 =>
    if e = 'u' then parseUEscape rest2
    else
      match simpleEscape e with
      | some ec =>
        match parseStringBody rest2 with
        | some (tl, rst) => some (ec :: tl, rst)
        | none => none
      | none => none
/-- Parse the four hex digits of a u-escape and the remaining string body. -/
def parseUEscape : List Char → Option (List Char × List Char)
  | h1 :: h2 :: h3 :: h4 :: rest3 =>
    match parseHex h1, parseHex h2, parseHex h3, parseHex h4 with
    | some d1, some d2, some d3, some d4 =>
      match parseStringBody rest3 with
      | some (tl, rst) =>
        some (Char.ofNat (d1 * 4096 + d2 * 256 + d3 * 16 + d4) :: tl, rst)
      | none => none
    | _, _, _, _ => none
  | _ => none
end

mutual
/-- Recursive-descent parser for the modelled JSON fragment.  The fuel bounds
the recursion through values; every recursive call spends one unit. -/
def parseValue : Nat → List Char → Option (Json × List Char)
  | 0, _ => none
  | fuel + 1, s =>
    match skipWs s with
    | [] => none
    | c :: rest =>
      if c = '"' then
        match parseStringBody rest with
        | some (cs, r) => some (.str ⟨cs⟩, r)
        | none => none
      else if c = '[' then
        match skipWs rest with
        | c2 :: r2 =>
          if c2 = ']' then some (.arr .nil, r2)
          else
            match parseArrItems fuel rest with
            | some (xs, r) => some (.arr xs, r)
            | none => none
        | [] => none
      else if c = lbrace then
        match skipWs rest with
        | c2 :: r2 =>
          if c2 = rbrace then some (.obj .nil, r2)
          else
            match parseObjItems fuel rest with
            | some (fs, r) => some (.obj fs, r)
            | none => none
        | [] => none
      else none
def parseArrItems : Nat → List Char → Option (JsonArr × List Char)
  | 0, _ => none
  | fuel + 1, s =>
    match parseValue fuel s with
    | none => none
    | some (j, r1) =>
      match skipWs r1 with
      | c :: r2 =>
        if c = ',' then
          match parseArrItems fuel r2 with
          | some (tl, r3) => some (.cons j tl, r3)
          | none => none
        else if c = ']' then some (.cons j .nil, r2)
        else none
      | [] => none
def parseObjItems : Nat → List Char → Option (JsonObj × List Char)
  | 0, _ => none
  | fuel + 1, s =>
    match skipWs s with
    | c0 :: r0 =>
      if c0 = '"' then
        match parseStringBody r0 with
        | some (k, r1) =>
          match skipWs r1 with
          | c1 :: r2 =>
            if c1 = ':' then
              match parseValue fuel r2 with
              | some (v, r3) =>
                match skipWs r3 with
                | c2 :: r4 =>
                  if c2 = ',' then
                    match parseObjItems fuel r4 with
                    | some (tl, r5) => some (.cons ⟨k⟩ v tl, r5)
                    | none => none
                  else if c2 = rbrace then some (.cons ⟨k⟩ v .nil, r4)
                  else none
                | [] => none
              | none => none
            else none
          | [] => none
        | none => none
      else none
    | [] => none
end

/-- JSON.parse for the modelled fragment: parse one value and require that only
whitespace follows. -/
def jsonParse (s : String) : Option Json :=
  match parseValue (s.length + 1) s.data with
  | some (j, rest) =>
    match skipWs rest with
    | [] => some j
    | _ => none
  | none => none

/-- Object field lookup as JSON.parse builds objects: on duplicate keys the
last occurrence wins, as in JavaScript. -/
def objLookup (k : String) : JsonObj → Option Json
  | .nil => none
  | .cons k' v tl =>
    match objLookup k tl with
    | some w => some w
    | none => if k' = k then some v else none

def sessionToJson (s : SessionDesc) : Json :=
  .obj (.cons "type" (.str s.stype) (.cons "sdp" (.str s.sdp) .nil))

def candToJson (c : IceCandidate) : Json :=
  .obj (.cons "candidate" (.str c.candidate) .nil)

def candsToJson : List IceCandidate → JsonArr
  | [] => .nil
  | c :: cs => .cons (candToJson c) (candsToJson cs)

/-- The JSON record JSON.stringify sees: the session first, then the
candidates, in the insertion order of the object literal. -/
def payloadToJson (p : SessionPayload) : Json :=
  .obj (.cons "session" (sessionToJson p.session)
    (.cons "iceCandidates" (.arr (candsToJson p.iceCandidates)) .nil))

def sessionOfJson : Json → Option SessionDesc
  | .obj fs =>
    match objLookup "type" fs, objLookup "sdp" fs with
    | some (.str t), some (.str s) => some ⟨t, s⟩
    | _, _ => none
  | _ => none

def candOfJson : Json → Option IceCandidate
  | .obj fs =>
    match objLookup "candidate" fs with
    | some (.str c) => some ⟨c⟩
    | _ => none
  | _ => none

def candsOfJson : JsonArr → Option (List IceCandidate)
  | .nil => some []
  | .cons j tl =>
    match candOfJson j, candsOfJson tl with
    | some c, some cs => some (c :: cs)
    | _, _ => none

/-- Extraction of the payload record from a parsed JSON value; the TypeScript
cast performs no check, so this models the field accesses the controller makes
on the decoded value. -/
def payloadOfJson : Json → Option SessionPayload
  | .obj fs =>
    match objLookup "session" fs, objLookup "iceCandidates" fs with
    | some sj, some (.arr aj) =>
      match sessionOfJson sj, candsOfJson aj with
      | some s, some cs => some ⟨s, cs⟩
      | _, _ => none
    | _, _ => none
  | _ => none

/-- The base64 alphabet. -/
def b64Alpha : List Char :=
  "ABCDEFGHIJKLMNOPQRSTUVWXYZabcdefghijklmnopqrstuvwxyz0123456789+/".data

def b64Char (n : Nat) : Char := b64Alpha.getD n 'A'

def b64IndexAux : List Char → Char → Nat → Option Nat
  | [], _, _ => none
  | a :: tl, c, i => if a = c then some i else b64IndexAux tl c (i + 1)

/-- Position of a character in the base64 alphabet. -/
def b64Index (c : Char) : Option Nat := b64IndexAux b64Alpha c 0

/-- btoa's encoding of a byte sequence: three bytes become four alphabet
characters, a final partial group is padded with '='. -/
def b64EncodeBytes : List Nat → List Char
  | [] => []
  | [b0] => [b64Char (b0 / 4), b64Char (b0 % 4 * 16), '=', '=']
  | [b0, b1] => [b64Char (b0 / 4), b64Char (b0 % 4 * 16 + b1 / 16), b64Char (b1 % 16 * 4), '=']
  | b0 :: b1 :: b2 :: rest =>
    b64Char (b0 / 4) :: b64Char (b0 % 4 * 16 + b1 / 16) ::
      b64Char (b1 % 16 * 4 + b2 / 64) :: b64Char (b2 % 64) :: b64EncodeBytes rest

/-- Decoding of the final four-character group, which may carry padding. -/
def b64DecodeLast (c0 c1 c2 c3 : Char) : Option (List Nat) :=
  if c2 = '=' then
    if c3 = '=' then
      match b64Index c0, b64Index c1 with
      | some s0, some s1 => some [s0 * 4 + s1 / 16]
      | _, _ => none
    else none
  else if c3 = '=' then
    match b64Index c0, b64Index c1, b64Index c2 with
    | some s0, some s1, some s2 => some [s0 * 4 + s1 / 16, s1 % 16 * 16 + s2 / 4]
    | _, _, _ => none
  else
    match b64Index c0, b64Index c1, b64Index c2, b64Index c3 with
    | some s0, some s1, some s2, some s3 =>
      some [s0 * 4 + s1 / 16, s1 % 16 * 16 + s2 / 4, s2 % 4 * 64 + s3]
    | _, _, _, _ => none

/-- atob's decoding: four-character groups, the final group possibly padded;
anything else is rejected. -/
def b64DecodeChunks : List Char → Option (List Nat)
  | [] => some []
  | c0 :: c1 :: c2 :: c3 :: rest =>
    if rest.isEmpty then b64DecodeLast c0 c1 c2 c3
    else
      match b64Index c0, b64Index c1, b64Index c2, b64Index c3 with
      | some s0, some s1, some s2, some s3 =>
        match b64DecodeChunks rest with
        | some tl => some ((s0 * 4 + s1 / 16) :: ((s1 % 16 * 16 + s2 / 4) :: ((s2 % 4 * 64 + s3) :: tl)))
        | none => none
      | _, _, _, _ => none
  | _ => none

/-- btoa: fails (throws InvalidCharacterError) unless every character code is
below 256; otherwise base64 of the character codes. -/
def btoaStr (s : String) : Option String :=
  if s.data.all (fun c => c.toNat < 256) then
    some ⟨b64EncodeBytes (s.data.map Char.toNat)⟩
  else none

/-- atob: decode the base64 groups back to a Latin-1 string. -/
def atobStr (s : String) : Option String :=
  match b64DecodeChunks s.data with
  | some bs => some ⟨bs.map Char.ofNat⟩
  | none => none

/-- createSessionPayload's packaging step: JSON.stringify then btoa. -/
def encodePayload (p : SessionPayload) : Option String :=
  btoaStr ⟨renderJson (payloadToJson p)⟩

/-- parseSessionPayload: atob, then JSON.parse, then the field accesses of the
unchecked cast. -/
def parseSessionPayload (s : String) : Option SessionPayload :=
  match atobStr s with
  | none => none
  | some t =>
    match jsonParse t with
    | none => none
    | some j => payloadOfJson j

/-- Events the peer connection delivers while a flow is suspended: candidate
discoveries (null marks the end of a round) and gathering-state changes. -/
inductive IceEvent where
  | candidate (c : Option IceCandidate)
  | stateChange (s : GatheringState)
deriving DecidableEq, Repr

/-- Result of running waitForIceCandidates against an event stream: whether the
wait completed, the observed gathering state, the candidate buffer, and the
events not yet consumed when the wait returned. -/
structure GatherResult where
  done : Bool
  state : GatheringState
  buf : List IceCandidate
  rest : List IceEvent
deriving DecidableEq, Repr

/-- waitForIceCandidates: check the gathering state, and while it is not
"complete" suspend on the next gathering-state-change notification and check
again; candidate events delivered while suspended are buffered by
handleIceCandidate.  If the stream ends before completion the wait stays
suspended. -/
def waitForIceCandidates :
    GatheringState → List IceCandidate → List IceEvent → GatherResult
  | s, buf, [] =>
    if s = .complete then ⟨true, s, buf, []⟩ else ⟨false, s, buf, []⟩
  | s, buf, ev :: evs =>
    if s = .complete then ⟨true, s, buf, ev :: evs⟩
    else
      match ev with
      | .candidate c => waitForIceCandidates s (pushCandidate buf c) evs
      | .stateChange s' => waitForIceCandidates s' buf evs

/-- The gathering state a sequence of events leaves the connection in. -/
def observedState (s : GatheringState) : List IceEvent → GatheringState
  | [] => s
  | .candidate _ :: evs => observedState s evs
  | .stateChange s' :: evs => observedState s' evs

/-- The non-null candidates delivered by a sequence of events, in order. -/
def collectCandidates : List IceEvent → List IceCandidate
  | [] => []
  | .candidate (some c) :: evs => c :: collectCandidates evs
  | .candidate none :: evs => collectCandidates evs
  | .stateChange _ :: evs => collectCandidates evs

/-- Outcome of createSessionPayload: an encoded payload, a forever-suspended
wait, or a btoa failure. -/
inductive CSPResult where
  | payload (p : String) (st : ControllerState)
  | stuck (st : ControllerState)
  | encodeFail (st : ControllerState)
deriving DecidableEq, Repr

def CSPResult.getState : CSPResult → ControllerState
  | .payload _ st => st
  | .stuck st => st
  | .encodeFail st => st

def CSPResult.isPayload : CSPResult → Bool
  | .payload _ _ => true
  | _ => false

def CSPResult.getPayload : CSPResult → Option String
  | .payload p _ => some p
  | _ => none

/-- createSessionPayload: await ICE gathering completion, then package the
session together with the whole candidate buffer as base64 JSON. -/
def createSessionPayload (session : SessionDesc) (st : ControllerState)
    (evs : List IceEvent) : CSPResult :=
  let r := waitForIceCandidates st.gatheringState st.iceCandidates evs
  let st' := { st with gatheringState := r.state, iceCandidates := r.buf }
  if r.done then
    match encodePayload ⟨session, r.buf⟩ with
    | some p => .payload p st'
    | none => .encodeFail st'
  else .stuck st'

/-- Failures of the negotiation flows that the embedding distinguishes. -/
inductive JoinError where
  | decodeError
  | iceApplicationError
  | encodingError
deriving DecidableEq, Repr

/-- Outcome of an asynchronous flow: normal completion, a raised error, or a
wait that never resolves; each carries the controller state reached and the
calls issued to the peer connection. -/
inductive FlowResult where
  | ok (st : ControllerState) (calls : List PCCall)
  | error (e : JoinError) (st : ControllerState) (calls : List PCCall)
  | stuck (st : ControllerState) (calls : List PCCall)
deriving DecidableEq, Repr

def FlowResult.resultState : FlowResult → ControllerState
  | .ok st _ => st
  | .error _ st _ => st
  | .stuck st _ => st

def FlowResult.resultCalls : FlowResult → List PCCall
  | .ok _ calls => calls
  | .error _ _ calls => calls
  | .stuck _ calls => calls

/-- Environment for a joinSession run: the answer createAnswer would produce,
the success of each addIceCandidate call, and the gathering events delivered
while the answer branch waits. -/
structure JoinEnv where
  answer : SessionDesc
  addResults : IceCandidate → Bool
  events : List IceEvent

/-- Environment for a hostSession run. -/
structure HostEnv where
  offer : SessionDesc
  events : List IceEvent

/-- joinSession: decode the payload, display the joining line, set the remote
description, apply all contained candidates concurrently (every add is issued;
a single failure rejects the joint wait, the successful additions remain), and
branch: an answer completes the session, an offer triggers createAnswer with
ICE restart, setLocalDescription, payload creation and display of the reply. -/
def joinSession (st : ControllerState) (env : JoinEnv) (response : String) :
    FlowResult :=
  match parseSessionPayload response with
  | none => .error .decodeError st []
  | some pl =>
    let st1 := showMessage st ("joining: " ++ pl.session.sdp)
    let calls1 := PCCall.setRemoteDescription pl.session ::
      pl.iceCandidates.map PCCall.addIceCandidate
    let st2 := { st1 with
      pcAddedCandidates := st1.pcAddedCandidates ++ pl.iceCandidates.filter env.addResults }
    if pl.iceCandidates.all env.addResults then
      if pl.session.stype = "answer" then
        .ok (showMessage st2 "Finished session setup!") calls1
      else
        let calls2 := calls1 ++ [PCCall.createAnswer true, PCCall.setLocalDescription env.answer]
        match createSessionPayload env.answer st2 env.events with
        | .payload p st3 => .ok (showMessage st3 ("Answer: " ++ p)) calls2
        | .stuck st3 => .stuck st3 calls2
        | .encodeFail st3 => .error .encodingError st3 calls2
    else .error .iceApplicationError st2 calls1

/-- hostSession: createOffer with ICE restart, setLocalDescription, await
gathering, package and display the offer payload. -/
def hostSession (st : ControllerState) (env : HostEnv) : FlowResult :=
  let calls := [PCCall.createOffer true, PCCall.setLocalDescription env.offer]
  match createSessionPayload env.offer st env.events with
  | .payload p st' => .ok (showMessage st' ("Offer: " ++ p)) calls
  | .stuck st' => .stuck st' calls
  | .encodeFail st' => .error .encodingError st' calls

theorem waitFor_complete (s : GatheringState) (buf : List IceCandidate)
    (evs : List IceEvent) (hs : s = .complete) :
    waitForIceCandidates s buf evs = ⟨true, s, buf, evs⟩ := by
  subst hs
  cases evs <;> simp [waitForIceCandidates]

theorem waitFor_step_candidate (s : GatheringState) (buf : List IceCandidate)
    (c : Option IceCandidate) (evs : List IceEvent) (hs : s ≠ .complete) :
    waitForIceCandidates s buf (.candidate c :: evs) =
      waitForIceCandidates s (pushCandidate buf c) evs := by
  simp [waitForIceCandidates, hs]

theorem waitFor_step_state (s : GatheringState) (buf : List IceCandidate)
    (s' : GatheringState) (evs : List IceEvent) (hs : s ≠ .complete) :
    waitForIceCandidates s buf (.stateChange s' :: evs) =
      waitForIceCandidates s' buf evs := by
  simp [waitForIceCandidates, hs]

theorem waitForIceCandidates_done_spec :
    ∀ (evs : List IceEvent) (s : GatheringState) (buf : List IceCandidate),
      (waitForIceCandidates s buf evs).done = true →
      ∃ pre, evs = pre ++ (waitForIceCandidates s buf evs).rest ∧
        (waitForIceCandidates s buf evs).buf = buf ++ collectCandidates pre ∧
        observedState s pre = .complete ∧
        (waitForIceCandidates s buf evs).state = .complete
  | [], s, buf => by
    intro h
    by_cases hs : s = .complete
    · rw [waitFor_complete s buf [] hs]
      exact ⟨[], by simp [collectCandidates, observedState, hs]⟩
    · simp [waitForIceCandidates, hs] at h
  | ev :: evs, s, buf => by
    intro h
    by_cases hs : s = .complete
    · rw [waitFor_complete s buf (ev :: evs) hs]
      exact ⟨[], by simp [collectCandidates, observedState, hs]⟩
    · cases ev with
      | candidate c =>
        rw [waitFor_step_candidate s buf c evs hs] at h ⊢
        obtain ⟨pre, hpre, hbuf, hobs, hstate⟩ :=
          waitForIceCandidates_done_spec evs s (pushCandidate buf c) h
        refine ⟨.candidate c :: pre, by simpa using hpre, ?_,
          by simpa [observedState] using hobs, hstate⟩
        cases c with
        | none => simpa [collectCandidates, pushCandidate] using hbuf
        | some x =>
          rw [hbuf]
          simp [collectCandidates, pushCandidate]
      | stateChange s' =>
        rw [waitFor_step_state s buf s' evs hs] at h ⊢
        obtain ⟨pre, hpre, hbuf, hobs, hstate⟩ :=
          waitForIceCandidates_done_spec evs s' buf h
        exact ⟨.stateChange s' :: pre, by simpa using hpre,
          by simpa [collectCandidates] using hbuf,
          by simpa [observedState] using hobs, hstate⟩

theorem waitForIceCandidates_buf :
    ∀ (evs : List IceEvent) (s : GatheringState) (buf : List IceCandidate),
      ∃ t, (waitForIceCandidates s buf evs).buf = buf ++ t
  | [], s, buf => by
    by_cases hs : s = .complete
    · exact ⟨[], by rw [waitFor_complete s buf [] hs]; simp⟩
    · exact ⟨[], by simp [waitForIceCandidates, hs]⟩
  | ev :: evs, s, buf => by
    by_cases hs : s = .complete
    · exact ⟨[], by rw [waitFor_complete s buf (ev :: evs) hs]; simp⟩
    · cases ev with
      | candidate c =>
        rw [waitFor_step_candidate s buf c evs hs]
        obtain ⟨t, ht⟩ := waitForIceCandidates_buf evs s (pushCandidate buf c)
        cases c with
        | none => exact ⟨t, by simpa [pushCandidate] using ht⟩
        | some x =>
          refine ⟨x :: t, ?_⟩
          rw [ht]
          simp [pushCandidate]
      | stateChange s' =>
        rw [waitFor_step_state s buf s' evs hs]
        exact waitForIceCandidates_buf evs s' buf

theorem createSessionPayload_getState (session : SessionDesc) (st : ControllerState)
    (evs : List IceEvent) :
    (createSessionPayload session st evs).getState =
      { st with
          gatheringState := (waitForIceCandidates st.gatheringState st.iceCandidates evs).state
          iceCandidates := (waitForIceCandidates st.gatheringState st.iceCandidates evs).buf } := by
  simp only [createSessionPayload]
  split
  · split <;> rfl
  · rfl

theorem createSessionPayload_getPayload (session : SessionDesc) (st : ControllerState)
    (evs : List IceEvent) :
    (createSessionPayload session st evs).getPayload =
      (if (waitForIceCandidates st.gatheringState st.iceCandidates evs).done then
        encodePayload ⟨session, (waitForIceCandidates st.gatheringState st.iceCandidates evs).buf⟩
      else none) := by
  simp only [createSessionPayload]
  split
  · split <;> simp_all [CSPResult.getPayload]
  · simp_all [CSPResult.getPayload]

theorem createSessionPayload_isPayload (session : SessionDesc) (st : ControllerState)
    (evs : List IceEvent)
    (h : (createSessionPayload session st evs).isPayload = true) :
    (waitForIceCandidates st.gatheringState st.iceCandidates evs).done = true := by
  by_contra hd
  simp only [createSessionPayload, CSPResult.isPayload] at h
  rw [if_neg hd] at h
  exact Bool.noConfusion h

/-- C1: a payload is packaged by createSessionPayload only once the observed
gathering state is "complete" (waitForIceCandidates re-waits across any number
of state transitions until then), and the payload encodes exactly the candidate
buffer as accumulated at that moment: the initial buffer plus every non-null
candidate delivered before completion was observed, with the later events left
unconsumed. -/
theorem claim_C1_gathering_gate (session : SessionDesc) (st : ControllerState)
    (evs : List IceEvent)
    (h : (createSessionPayload session st evs).isPayload = true) :
    (createSessionPayload session st evs).getState.gatheringState = .complete ∧
    ∃ pre rest, evs = pre ++ rest ∧
      observedState st.gatheringState pre = .complete ∧
      (createSessionPayload session st evs).getState.iceCandidates
        = st.iceCandidates ++ collectCandidates pre ∧
      encodePayload ⟨session, (createSessionPayload session st evs).getState.iceCandidates⟩
        = (createSessionPayload session st evs).getPayload := by
  have hdone := createSessionPayload_isPayload session st evs h
  obtain ⟨pre, hpre, hbuf, hobs, hstate⟩ :=
    waitForIceCandidates_done_spec evs st.gatheringState st.iceCandidates hdone
  have hgs := createSessionPayload_getState session st evs
  refine ⟨by rw [hgs]; exact hstate, pre,
    (waitForIceCandidates st.gatheringState st.iceCandidates evs).rest, hpre, hobs,
    by rw [hgs]; exact hbuf, ?_⟩
  rw [createSessionPayload_getPayload, if_pos hdone, hgs]

/-- C1 witness: a run whose gathering completes only after several transitions;
the payload carries the two candidates found before completion, and the
candidate delivered after the completion transition is left unconsumed. -/
theorem claim_C1_gathering_gate_witness :
    (createSessionPayload ⟨"offer", "x"⟩ initController
        [.candidate (some ⟨"c1"⟩), .stateChange .gathering, .candidate (some ⟨"c2"⟩),
          .stateChange .complete, .candidate (some ⟨"late"⟩)]).getState.gatheringState
      = .complete ∧
    ∃ pre rest,
      [IceEvent.candidate (some ⟨"c1"⟩), .stateChange .gathering, .candidate (some ⟨"c2"⟩),
        .stateChange .complete, .candidate (some ⟨"late"⟩)] = pre ++ rest ∧
      observedState initController.gatheringState pre = .complete ∧
      (createSessionPayload ⟨"offer", "x"⟩ initController
          [.candidate (some ⟨"c1"⟩), .stateChange .gathering, .candidate (some ⟨"c2"⟩),
            .stateChange .complete, .candidate (some ⟨"late"⟩)]).getState.iceCandidates
        = initController.iceCandidates ++ collectCandidates pre ∧
      encodePayload ⟨⟨"offer", "x"⟩,
          (createSessionPayload ⟨"offer", "x"⟩ initController
            [.candidate (some ⟨"c1"⟩), .stateChange .gathering, .candidate (some ⟨"c2"⟩),
              .stateChange .complete, .candidate (some ⟨"late"⟩)]).getState.iceCandidates⟩
        = (createSessionPayload ⟨"offer", "x"⟩ initController
            [.candidate (some ⟨"c1"⟩), .stateChange .gathering, .candidate (some ⟨"c2"⟩),
              .stateChange .complete, .candidate (some ⟨"late"⟩)]).getPayload :=
  claim_C1_gathering_gate ⟨"offer", "x"⟩ initController
    [.candidate (some ⟨"c1"⟩), .stateChange .gathering, .candidate (some ⟨"c2"⟩),
      .stateChange .complete, .candidate (some ⟨"late"⟩)] (by decide)

theorem hostSession_resultState_buf (st : ControllerState) (env : HostEnv) :
    ∃ t, (hostSession st env).resultState.iceCandidates = st.iceCandidates ++ t := by
  obtain ⟨t, ht⟩ := waitForIceCandidates_buf env.events st.gatheringState st.iceCandidates
  refine ⟨t, ?_⟩
  have hgs := createSessionPayload_getState env.offer st env.events
  unfold hostSession
  cases hcsp : createSessionPayload env.offer st env.events with
  | payload p st' =>
    rw [hcsp] at hgs
    simp only [CSPResult.getState] at hgs
    simp [FlowResult.resultState, showMessage, hgs, ht]
  | stuck st' =>
    rw [hcsp] at hgs
    simp only [CSPResult.getState] at hgs
    simp [FlowResult.resultState, hgs, ht]
  | encodeFail st' =>
    rw [hcsp] at hgs
    simp only [CSPResult.getState] at hgs
    simp [FlowResult.resultState, hgs, ht]

theorem joinSession_resultState_buf (st : ControllerState) (env : JoinEnv) (r : String) :
    ∃ t, (joinSession st env r).resultState.iceCandidates = st.iceCandidates ++ t := by
  unfold joinSession
  cases hp : parseSessionPayload r with
  | none => exact ⟨[], by simp [FlowResult.resultState]⟩
  | some pl =>
    simp only []
    split
    · split
      · exact ⟨[], by simp [FlowResult.resultState, showMessage]⟩
      · set st2 : ControllerState :=
          { showMessage st ("joining: " ++ pl.session.sdp) with
            pcAddedCandidates :=
              (showMessage st ("joining: " ++ pl.session.sdp)).pcAddedCandidates ++
                pl.iceCandidates.filter env.addResults } with hst2
        obtain ⟨t, ht⟩ :=
          waitForIceCandidates_buf env.events st2.gatheringState st2.iceCandidates
        have hbuf2 : st2.iceCandidates = st.iceCandidates := by
          simp [hst2, showMessage]
        have hgath2 : st2.gatheringState = st.gatheringState := by
          simp [hst2, showMessage]
        rw [hbuf2, hgath2] at ht
        refine ⟨t, ?_⟩
        have hgs := createSessionPayload_getState env.answer st2 env.events
        cases hcsp : createSessionPayload env.answer st2 env.events with
        | payload p st3 =>
          rw [hcsp] at hgs
          simp only [CSPResult.getState] at hgs
          simp [FlowResult.resultState, showMessage, hgs, ht]
        | stuck st3 =>
          rw [hcsp] at hgs
          simp only [CSPResult.getState] at hgs
          simp [FlowResult.resultState, showMessage, hgs, ht]
        | encodeFail st3 =>
          rw [hcsp] at hgs
          simp only [CSPResult.getState] at hgs
          simp [FlowResult.resultState, showMessage, hgs, ht]
    · exact ⟨[], by simp [FlowResult.resultState, showMessage]⟩

/-- C9: the candidate buffer starts empty at construction, the discovery
handler appends exactly the non-null candidates (null is ignored), and every
operation of the controller leaves the buffer equal to its old value with
entries only appended; payload construction never removes entries. -/
theorem claim_C9_buffer_append_only :
    initController.iceCandidates = [] ∧
    (∀ st, handleIceCandidate st none = st) ∧
    (∀ st c, (handleIceCandidate st (some c)).iceCandidates = st.iceCandidates ++ [c]) ∧
    (∀ st v, (handleInputSync st v).iceCandidates = st.iceCandidates) ∧
    (∀ st ch, (handleDataChannel st ch).iceCandidates = st.iceCandidates) ∧
    (∀ st ch d, (channelMessage st ch d).iceCandidates = st.iceCandidates) ∧
    (∀ st env, ∃ t, (hostSession st env).resultState.iceCandidates
      = st.iceCandidates ++ t) ∧
    (∀ st env r, ∃ t, (joinSession st env r).resultState.iceCandidates
      = st.iceCandidates ++ t) := by
  refine ⟨rfl, ?_, ?_, ?_, ?_, ?_, hostSession_resultState_buf, joinSession_resultState_buf⟩
  · intro st
    simp [handleIceCandidate, pushCandidate]
  · intro st c
    simp [handleIceCandidate, pushCandidate]
  · intro st v
    unfold handleInputSync
    rcases handleInput v with _ | p | m | c | _ <;>
      simp only [sendMessage, showMessage] <;>
      rcases st.dataChannel with _ | ch <;>
      simp
  · intro st ch
    simp [handleDataChannel]
  · intro st ch d
    unfold channelMessage
    split <;> simp [handleMessage, showMessage]

/-- C10: submitting the empty input line is a complete no-op: it routes to no
action, and the synchronous input step leaves the controller state unchanged
(nothing sent, nothing displayed, no other field touched). -/
theorem claim_C10_empty_input_noop :
    handleInput "" = RouteAction.noneA ∧ ∀ st, handleInputSync st "" = st := by
  exact ⟨by decide, fun st => rfl⟩

/-- C4 counterexample: the empty line does not start with the command marker,
yet it is not sent verbatim as a chat message; it is dropped entirely, so the
universally quantified send clause of the claim fails at the empty input. -/
theorem claim_C4_routing_cex :
    handleInput "" ≠ RouteAction.sendA "" ∧ handleInput "" = RouteAction.noneA := by
  exact ⟨by decide, by decide⟩

/-- C4 amended: "/host" routes to the hosting flow with no argument,
"/join ABC123" routes to the join flow with exactly "ABC123", the remainder of
a join line is rejoined as one string even when it contains spaces, every
NONEMPTY input line not starting with the command marker is sent verbatim as a
chat message (the empty line is dropped), and an unknown command yields the
visible line "Invalid Command: bogus". -/
theorem claim_C4_routing (v : String) (st : ControllerState)
    (h1 : v ≠ "") (h2 : v.data.head? ≠ some '/') :
    handleInput "/host" = RouteAction.hostA ∧
    handleInput "/join ABC123" = RouteAction.joinA "ABC123" ∧
    handleInput "/join A B C" = RouteAction.joinA "A B C" ∧
    handleInput v = RouteAction.sendA v ∧
    handleInput "/bogus" = RouteAction.invalidA "bogus" ∧
    handleInputSync st "/bogus" = showMessage st "Invalid Command: bogus" := by
  refine ⟨by decide, by decide, by decide, ?_, by decide, rfl⟩
  rcases hv : v.data with _ | ⟨c, cs⟩
  · exact absurd (by cases v with | mk d => simpa using congrArg String.mk hv) h1
  · have hc : c ≠ '/' := by
      rw [hv] at h2
      simpa using h2
    simp [handleInput, hv, hc]

theorem claim_C4_routing_witness :
    handleInput "/host" = RouteAction.hostA ∧
    handleInput "/join ABC123" = RouteAction.joinA "ABC123" ∧
    handleInput "/join A B C" = RouteAction.joinA "A B C" ∧
    handleInput "hello" = RouteAction.sendA "hello" ∧
    handleInput "/bogus" = RouteAction.invalidA "bogus" ∧
    handleInputSync initController "/bogus"
      = showMessage initController "Invalid Command: bogus" :=
  claim_C4_routing "hello" initController (by decide) (by decide)

/-- C6 counterexample: the dispatcher does route a bare "/join" line to the
join path with the empty string as its argument. -/
theorem claim_C6_join_empty_cex : handleInput "/join" = RouteAction.joinA "" := by
  decide

/-- C6 amended: a bare "/join" line invokes the join flow with the empty
string; that call then fails at decoding with a DecodeError, leaving the state
unchanged and issuing no peer-connection call. -/
theorem claim_C6_join_empty (st : ControllerState) (env : JoinEnv) :
    handleInput "/join" = RouteAction.joinA "" ∧
    joinSession st env "" = .error .decodeError st [] := by
  refine ⟨by decide, ?_⟩
  have h : parseSessionPayload "" = none := by decide
  simp [joinSession, h]

/-- C8 counterexample: after the remote peer delivers channel 1 while channel
0 is active and subscribed, a message event on the old channel 0 still reaches
the display, so incoming messages do not arrive only via the new channel. -/
theorem claim_C8_handover_cex :
    (channelMessage (handleDataChannel initController 1) 0 "hi").messages ≠
      (handleDataChannel initController 1).messages := by
  decide

/-- C8 amended: a remote channel-opened notification replaces the active
channel reference (so outgoing messages are sent over the new channel) and
additionally subscribes the message handler on the new channel; the old
subscription is not removed, so messages keep arriving via both the old and
the new channel, without error. -/
theorem claim_C8_handover (st : ControllerState) (chB chA : Channel)
    (v d : String) (hA : chA ∈ st.subscribedChannels) :
    handleDataChannel st chB =
      { st with
          dataChannel := some chB
          subscribedChannels := st.subscribedChannels ++ [chB] } ∧
    sendMessage (handleDataChannel st chB) v =
      { handleDataChannel st chB with
          sent := (handleDataChannel st chB).sent ++ [(chB, v)] } ∧
    channelMessage (handleDataChannel st chB) chA d =
      showMessage (handleDataChannel st chB) d ∧
    channelMessage (handleDataChannel st chB) chB d =
      showMessage (handleDataChannel st chB) d := by
  refine ⟨rfl, rfl, ?_, ?_⟩
  · have hmem : chA ∈ (handleDataChannel st chB).subscribedChannels := by
      simp [handleDataChannel]
      exact Or.inl hA
    simp [channelMessage, hmem, handleMessage]
  · have hmem : chB ∈ (handleDataChannel st chB).subscribedChannels := by
      simp [handleDataChannel]
    simp [channelMessage, hmem, handleMessage]

theorem claim_C8_handover_witness :
    handleDataChannel initController 1 =
      { initController with
          dataChannel := some 1
          subscribedChannels := initController.subscribedChannels ++ [1] } ∧
    sendMessage (handleDataChannel initController 1) "v" =
      { handleDataChannel initController 1 with
          sent := (handleDataChannel initController 1).sent ++ [(1, "v")] } ∧
    channelMessage (handleDataChannel initController 1) 0 "d" =
      showMessage (handleDataChannel initController 1) "d" ∧
    channelMessage (handleDataChannel initController 1) 1 "d" =
      showMessage (handleDataChannel initController 1) "d" :=
  claim_C8_handover initController 1 0 "v" "d" (by decide)

theorem b64Index_b64Char : ∀ n < 64, b64Index (b64Char n) = some n := by
  decide

theorem b64Char_ne_pad : ∀ n < 64, b64Char n ≠ '=' := by
  decide

theorem b64EncodeBytes_ne_nil : ∀ (b : Nat) (bs : List Nat), b64EncodeBytes (b :: bs) ≠ []
  | b, [] => by simp [b64EncodeBytes]
  | b, [b1] => by simp [b64EncodeBytes]
  | b, b1 :: b2 :: bs => by simp [b64EncodeBytes]

theorem b64_decode_encode :
    ∀ (bs : List Nat), (∀ b ∈ bs, b < 256) →
      b64DecodeChunks (b64EncodeBytes bs) = some bs
  | [], _ => rfl
  | [b0], h => by
    have hb0 : b0 < 256 := h b0 (by simp)
    have h1 : b0 / 4 < 64 := by omega
    have h2 : b0 % 4 * 16 < 64 := by omega
    have e1 : b0 / 4 * 4 + b0 % 4 * 16 / 16 = b0 := by omega
    simp only [b64EncodeBytes, b64DecodeChunks, List.isEmpty, if_true, b64DecodeLast,
      if_pos rfl, b64Index_b64Char _ h1, b64Index_b64Char _ h2, e1]
  | [b0, b1], h => by
    have hb0 : b0 < 256 := h b0 (by simp)
    have hb1 : b1 < 256 := h b1 (by simp)
    have h1 : b0 / 4 < 64 := by omega
    have h2 : b0 % 4 * 16 + b1 / 16 < 64 := by omega
    have h3 : b1 % 16 * 4 < 64 := by omega
    have e1 : b0 / 4 * 4 + (b0 % 4 * 16 + b1 / 16) / 16 = b0 := by omega
    have e2 : (b0 % 4 * 16 + b1 / 16) % 16 * 16 + b1 % 16 * 4 / 4 = b1 := by omega
    simp only [b64EncodeBytes, b64DecodeChunks, List.isEmpty, if_true, b64DecodeLast,
      if_neg (b64Char_ne_pad _ h3), if_pos rfl,
      b64Index_b64Char _ h1, b64Index_b64Char _ h2, b64Index_b64Char _ h3, e1, e2]
  | b0 :: b1 :: b2 :: rest, h => by
    have hb0 : b0 < 256 := h b0 (by simp)
    have hb1 : b1 < 256 := h b1 (by simp)
    have hb2 : b2 < 256 := h b2 (by simp)
    have h1 : b0 / 4 < 64 := by omega
    have h2 : b0 % 4 * 16 + b1 / 16 < 64 := by omega
    have h3 : b1 % 16 * 4 + b2 / 64 < 64 := by omega
    have h4 : b2 % 64 < 64 := by omega
    have e1 : b0 / 4 * 4 + (b0 % 4 * 16 + b1 / 16) / 16 = b0 := by omega
    have e2 : (b0 % 4 * 16 + b1 / 16) % 16 * 16 + (b1 % 16 * 4 + b2 / 64) / 4 = b1 := by omega
    have e3 : (b1 % 16 * 4 + b2 / 64) % 4 * 64 + b2 % 64 = b2 := by omega
    have ih := b64_decode_encode rest (fun b hb => h b (by simp [hb]))
    cases hrest : rest with
    | nil =>
      subst hrest
      simp only [b64EncodeBytes, b64DecodeChunks, List.isEmpty, if_true, b64DecodeLast,
        if_neg (b64Char_ne_pad _ h3), if_neg (b64Char_ne_pad _ h4),
        b64Index_b64Char _ h1, b64Index_b64Char _ h2, b64Index_b64Char _ h3,
        b64Index_b64Char _ h4, e1, e2, e3]
    | cons rb rbs =>
      rw [hrest] at ih
      have hne : b64EncodeBytes (rb :: rbs) ≠ [] := b64EncodeBytes_ne_nil rb rbs
      simp only [b64EncodeBytes]
      rw [b64DecodeChunks, if_neg (by simpa [List.isEmpty_iff] using hne)]
      simp only [b64Index_b64Char _ h1, b64Index_b64Char _ h2, b64Index_b64Char _ h3,
        b64Index_b64Char _ h4, ih, e1, e2, e3]

theorem map_ofNat_toNat : ∀ l : List Char, l.map (fun c => Char.ofNat c.toNat) = l := by
  intro l
  induction l with
  | nil => rfl
  | cons c cs ih => simp [Char.ofNat_toNat, ih]

theorem atob_btoa (s : String) (h : s.data.all (fun c => c.toNat < 256) = true) :
    ∃ t, btoaStr s = some t ∧ atobStr t = some s := by
  obtain ⟨d⟩ := s
  refine ⟨⟨b64EncodeBytes (d.map Char.toNat)⟩, ?_, ?_⟩
  · simp only [btoaStr, if_pos h]
  · have hbytes : ∀ b ∈ d.map Char.toNat, b < 256 := by
      intro b hb
      obtain ⟨c, hc, rfl⟩ := List.mem_map.mp hb
      exact of_decide_eq_true (List.all_eq_true.mp h c hc)
    simp only [atobStr, b64_decode_encode _ hbytes, List.map_map]
    rw [show (Char.ofNat ∘ Char.toNat) = fun c => Char.ofNat c.toNat from rfl,
      map_ofNat_toNat]

theorem parseHex_hexDigitChar : ∀ n < 16, parseHex (hexDigitChar n) = some n := by
  decide

theorem skipWs_cons (c : Char) (l : List Char) (h : isJsonWs c = false) :
    skipWs (c :: l) = c :: l := by
  simp [skipWs, h]

theorem parseStringBody_escapeChar (c : Char) (r : List Char) (cs rst : List Char)
    (h : parseStringBody r = some (cs, rst)) :
    parseStringBody (escapeChar c ++ r) = some (c :: cs, rst) := by
  by_cases hq : c = '"'
  · subst hq
    simp [escapeChar, parseStringBody, parseEscape, simpleEscape, h]
  · by_cases hb : c = '\\'
    · subst hb
      simp [escapeChar, parseStringBody, parseEscape, simpleEscape, h]
    · by_cases hc : c.toNat < 32
      · by_cases h8 : c.toNat = 8
        · have ht : c = Char.ofNat 8 := by rw [← h8, Char.ofNat_toNat]
          simp [escapeChar, hq, hb, hc, h8, parseStringBody, parseEscape, simpleEscape, h, ht]
        · by_cases h9 : c.toNat = 9
          · have ht : c = Char.ofNat 9 := by rw [← h9, Char.ofNat_toNat]
            simp [escapeChar, hq, hb, hc, h8, h9, parseStringBody, parseEscape,
              simpleEscape, h, ht, (by decide : Char.ofNat 9 = '\t')]
          · by_cases h10 : c.toNat = 10
            · have ht : c = Char.ofNat 10 := by rw [← h10, Char.ofNat_toNat]
              simp [escapeChar, hq, hb, hc, h8, h9, h10, parseStringBody, parseEscape,
                simpleEscape, h, ht, (by decide : Char.ofNat 10 = '\n')]
            · by_cases h12 : c.toNat = 12
              · have ht : c = Char.ofNat 12 := by rw [← h12, Char.ofNat_toNat]
                simp [escapeChar, hq, hb, hc, h8, h9, h10, h12, parseStringBody,
                  parseEscape, simpleEscape, h, ht]
              · by_cases h13 : c.toNat = 13
                · have ht : c = Char.ofNat 13 := by rw [← h13, Char.ofNat_toNat]
                  simp [escapeChar, hq, hb, hc, h8, h9, h10, h12, h13, parseStringBody,
                    parseEscape, simpleEscape, h, ht]
                · have hhi : c.toNat / 16 < 16 := by omega
                  have hlo : c.toNat % 16 < 16 := by omega
                  have harith : c.toNat / 16 * 16 + c.toNat % 16 = c.toNat := by omega
                  simp only [escapeChar, if_neg hq, if_neg hb, if_pos hc, if_neg h8,
                    if_neg h9, if_neg h10, if_neg h12, if_neg h13]
                  simp [parseStringBody, parseEscape, parseUEscape,
                    (by decide : parseHex '0' = some 0),
                    parseHex_hexDigitChar _ hhi, parseHex_hexDigitChar _ hlo, h,
                    harith, Char.ofNat_toNat]
      · simp [escapeChar, hq, hb, hc, parseStringBody, h]

theorem parseStringBody_escapeList :
    ∀ (l : List Char) (rest : List Char),
      parseStringBody (escapeList l ++ ('"' :: rest)) = some (l, rest)
  | [], rest => by simp [escapeList, parseStringBody]
  | c :: cs, rest => by
    have ih := parseStringBody_escapeList cs rest
    have hstep := parseStringBody_escapeChar c (escapeList cs ++ ('"' :: rest)) cs rest ih
    simpa [escapeList, List.append_assoc] using hstep

mutual
/-- Fuel sufficient for parseValue to consume the rendering of a value. -/
def needJson : Json → Nat
  | .str _ => 1
  | .arr xs => 1 + needArr xs
  | .obj fs => 1 + needObj fs
def needArr : JsonArr → Nat
  | .nil => 0
  | .cons j tl => 1 + max (needJson j) (needArr tl)
def needObj : JsonObj → Nat
  | .nil => 0
  | .cons _ v tl => 1 + max (needJson v) (needObj tl)
end

theorem parseValue_cons (f : Nat) (c : Char) (l : List Char) (h : isJsonWs c = false) :
    parseValue (f + 1) (c :: l) =
      (if c = '"' then
        match parseStringBody l with
        | some (cs, r) => some (.str ⟨cs⟩, r)
        | none => none
      else if c = '[' then
        match skipWs l with
        | c2 :: r2 =>
          if c2 = ']' then some (.arr .nil, r2)
          else
            match parseArrItems f l with
            | some (xs, r) => some (.arr xs, r)
            | none => none
        | [] => none
      else if c = lbrace then
        match skipWs l with
        | c2 :: r2 =>
          if c2 = rbrace then some (.obj .nil, r2)
          else
            match parseObjItems f l with
            | some (fs, r) => some (.obj fs, r)
            | none => none
        | [] => none
      else none) := by
  rw [parseValue, skipWs_cons c l h]

theorem renderJson_head_props (j : Json) :
    ∃ c t, renderJson j = c :: t ∧ isJsonWs c = false ∧ c ≠ ']' ∧ c ≠ rbrace ∧
      c ≠ ',' ∧ c ≠ ':' := by
  cases j with
  | str s =>
    exact ⟨'"', escapeList s.data ++ ['"'], by rw [renderJson, renderString],
      by decide, by decide, by decide, by decide, by decide⟩
  | arr xs =>
    exact ⟨'[', renderArr xs ++ [']'], by rw [renderJson],
      by decide, by decide, by decide, by decide, by decide⟩
  | obj fs =>
    exact ⟨lbrace, renderObj fs ++ [rbrace], by rw [renderJson],
      by decide, by decide, by decide, by decide, by decide⟩

theorem renderArr_cons_cons (j j2 : Json) (tl2 : JsonArr) :
    renderArr (.cons j (.cons j2 tl2)) = renderJson j ++ (',' :: renderArr (.cons j2 tl2)) := by
  rw [renderArr]
  intro h
  exact JsonArr.noConfusion h

theorem renderObj_cons_cons (k : String) (v : Json) (k2 : String) (v2 : Json) (tl2 : JsonObj) :
    renderObj (.cons k v (.cons k2 v2 tl2)) =
      renderString k ++ (':' :: (renderJson v ++ (',' :: renderObj (.cons k2 v2 tl2)))) := by
  rw [renderObj]
  intro h
  exact JsonObj.noConfusion h

mutual
theorem parse_renderJson : (j : Json) → ∀ (fuel : Nat) (rest : List Char),
    needJson j ≤ fuel → parseValue fuel (renderJson j ++ rest) = some (j, rest)
  | .str s, fuel, rest, hf => by
    obtain ⟨f, rfl⟩ : ∃ f, fuel = f + 1 := by
      cases fuel with
      | zero => simp only [needJson] at hf; omega
      | succ f => exact ⟨f, rfl⟩
    obtain ⟨sd⟩ := s
    rw [show renderJson (.str ⟨sd⟩) = '"' :: (escapeList sd ++ ['"']) from by
      rw [renderJson, renderString]]
    rw [List.cons_append, parseValue_cons f '"' _ (by decide), if_pos rfl,
      List.append_assoc, List.singleton_append, parseStringBody_escapeList sd rest]
  | .arr .nil, fuel, rest, hf => by
    obtain ⟨f, rfl⟩ : ∃ f, fuel = f + 1 := by
      cases fuel with
      | zero => simp only [needJson] at hf; omega
      | succ f => exact ⟨f, rfl⟩
    rw [show renderJson (.arr .nil) = '[' :: ([] ++ [']']) from by rw [renderJson, renderArr]]
    rw [List.nil_append, List.cons_append, List.singleton_append,
      parseValue_cons f '[' _ (by decide), if_neg (by decide), if_pos rfl,
      skipWs_cons _ _ (by decide)]
    simp
  | .arr (.cons j tl), fuel, rest, hf => by
    obtain ⟨f, rfl⟩ : ∃ f, fuel = f + 1 := by
      cases fuel with
      | zero => simp only [needJson] at hf; omega
      | succ f => exact ⟨f, rfl⟩
    have hfa : needArr (.cons j tl) ≤ f := by
      simp only [needJson] at hf
      omega
    rw [show renderJson (.arr (.cons j tl)) = '[' :: (renderArr (.cons j tl) ++ [']'])
      from by rw [renderJson]]
    rw [List.cons_append, List.append_assoc, List.singleton_append,
      parseValue_cons f '[' _ (by decide), if_neg (by decide), if_pos rfl]
    obtain ⟨X, hX⟩ : ∃ X, renderArr (.cons j tl) = renderJson j ++ X := by
      cases tl with
      | nil => exact ⟨[], by rw [renderArr, List.append_nil]⟩
      | cons j2 tl2 => exact ⟨',' :: renderArr (.cons j2 tl2), renderArr_cons_cons j j2 tl2⟩
    obtain ⟨hc, t, hj, hws, hrb, _, _, _⟩ := renderJson_head_props j
    have hskip : skipWs (renderArr (.cons j tl) ++ (']' :: rest)) =
        hc :: (t ++ X ++ (']' :: rest)) := by
      rw [hX, hj, List.cons_append, List.cons_append, skipWs_cons _ _ hws,
        List.append_assoc]
    rw [hskip]
    simp only [if_neg hrb]
    rw [parse_renderArrItems (.cons j tl) f rest
      (fun h => JsonArr.noConfusion h) hfa]
  | .obj .nil, fuel, rest, hf => by
    obtain ⟨f, rfl⟩ : ∃ f, fuel = f + 1 := by
      cases fuel with
      | zero => simp only [needJson] at hf; omega
      | succ f => exact ⟨f, rfl⟩
    rw [show renderJson (.obj .nil) = lbrace :: ([] ++ [rbrace]) from by
      rw [renderJson, renderObj]]
    rw [List.nil_append, List.cons_append, List.singleton_append,
      parseValue_cons f lbrace _ (by decide), if_neg (by decide), if_neg (by decide),
      if_pos rfl, skipWs_cons _ _ (by decide)]
    simp
  | .obj (.cons k v tl), fuel, rest, hf => by
    obtain ⟨f, rfl⟩ : ∃ f, fuel = f + 1 := by
      cases fuel with
      | zero => simp only [needJson] at hf; omega
      | succ f => exact ⟨f, rfl⟩
    have hfo : needObj (.cons k v tl) ≤ f := by
      simp only [needJson] at hf
      omega
    rw [show renderJson (.obj (.cons k v tl)) = lbrace :: (renderObj (.cons k v tl) ++ [rbrace])
      from by rw [renderJson]]
    rw [List.cons_append, List.append_assoc, List.singleton_append,
      parseValue_cons f lbrace _ (by decide), if_neg (by decide), if_neg (by decide),
      if_pos rfl]
    obtain ⟨Y, hY⟩ : ∃ Y, renderObj (.cons k v tl) = '"' :: (escapeList k.data ++ ('"' :: Y)) := by
      cases tl with
      | nil =>
        refine ⟨':' :: renderJson v, ?_⟩
        rw [renderObj, renderString, List.cons_append, List.append_assoc,
          List.singleton_append]
      | cons k2 v2 tl2 =>
        refine ⟨':' :: (renderJson v ++ (',' :: renderObj (.cons k2 v2 tl2))), ?_⟩
        rw [renderObj_cons_cons, renderString, List.cons_append, List.append_assoc,
          List.singleton_append]
    have hskip : skipWs (renderObj (.cons k v tl) ++ (rbrace :: rest)) =
        '"' :: ((escapeList k.data ++ ('"' :: Y)) ++ (rbrace :: rest)) := by
      rw [hY, List.cons_append, skipWs_cons _ _ (by decide)]
    rw [hskip]
    simp only [if_neg (by decide : ¬('"' = rbrace))]
    rw [parse_renderObjItems (.cons k v tl) f rest
      (fun h => JsonObj.noConfusion h) hfo]
  termination_by j => sizeOf j

theorem parse_renderArrItems : (xs : JsonArr) → ∀ (fuel : Nat) (rest : List Char),
    xs ≠ .nil → needArr xs ≤ fuel →
    parseArrItems fuel (renderArr xs ++ (']' :: rest)) = some (xs, rest)
  | .nil, _, _, hne, _ => absurd rfl hne
  | .cons j tl, fuel, rest, _, hf => by
    obtain ⟨f, rfl⟩ : ∃ f, fuel = f + 1 := by
      cases fuel with
      | zero => simp only [needArr] at hf; omega
      | succ f => exact ⟨f, rfl⟩
    have hfj : needJson j ≤ f := by
      simp only [needArr] at hf
      omega
    cases tl with
    | nil =>
      rw [show renderArr (.cons j .nil) = renderJson j from by rw [renderArr]]
      rw [parseArrItems]
      simp only [parse_renderJson j f (']' :: rest) hfj]
      rw [skipWs_cons _ _ (by decide)]
      simp
    | cons j2 tl2 =>
      have hftl : needArr (.cons j2 tl2) ≤ f := by
        simp only [needArr] at hf ⊢
        omega
      rw [renderArr_cons_cons j j2 tl2]
      rw [List.append_assoc, List.cons_append]
      rw [parseArrItems]
      simp only [parse_renderJson j f _ hfj]
      rw [skipWs_cons _ _ (by decide)]
      simp [parse_renderArrItems (.cons j2 tl2) f rest (fun h => JsonArr.noConfusion h) hftl]
  termination_by xs => sizeOf xs

theorem parse_renderObjItems : (fs : JsonObj) → ∀ (fuel : Nat) (rest : List Char),
    fs ≠ .nil → needObj fs ≤ fuel →
    parseObjItems fuel (renderObj fs ++ (rbrace :: rest)) = some (fs, rest)
  | .nil, _, _, hne, _ => absurd rfl hne
  | .cons k v tl, fuel, rest, _, hf => by
    obtain ⟨f, rfl⟩ : ∃ f, fuel = f + 1 := by
      cases fuel with
      | zero => simp only [needObj] at hf; omega
      | succ f => exact ⟨f, rfl⟩
    have hfv : needJson v ≤ f := by
      simp only [needObj] at hf
      omega
    obtain ⟨kd⟩ := k
    cases tl with
    | nil =>
      rw [show renderObj (.cons ⟨kd⟩ v .nil) =
          '"' :: (escapeList kd ++ ('"' :: (':' :: renderJson v))) from by
        rw [renderObj, renderString, List.cons_append, List.append_assoc,
          List.singleton_append]]
      rw [parseObjItems, List.cons_append, skipWs_cons _ _ (by decide)]
      have hpv : parseValue f (renderJson v ++ (rbrace :: rest)) = some (v, rbrace :: rest) :=
        parse_renderJson v f (rbrace :: rest) hfv
      simp only [rbrace] at hpv
      simp [parseStringBody_escapeList, skipWs_cons, isJsonWs, rbrace, hpv]
    | cons k2 v2 tl2 =>
      have hftl : needObj (.cons k2 v2 tl2) ≤ f := by
        simp only [needObj] at hf ⊢
        omega
      rw [show renderObj (.cons ⟨kd⟩ v (.cons k2 v2 tl2)) =
          '"' :: (escapeList kd ++ ('"' :: (':' :: (renderJson v ++
            (',' :: renderObj (.cons k2 v2 tl2)))))) from by
        rw [renderObj_cons_cons, renderString, List.cons_append, List.append_assoc,
          List.singleton_append]]
      rw [parseObjItems, List.cons_append, skipWs_cons _ _ (by decide)]
      have hpv : parseValue f (renderJson v ++ (',' :: (renderObj (.cons k2 v2 tl2) ++ (rbrace :: rest))))
          = some (v, ',' :: (renderObj (.cons k2 v2 tl2) ++ (rbrace :: rest))) :=
        parse_renderJson v f (',' :: (renderObj (.cons k2 v2 tl2) ++ (rbrace :: rest))) hfv
      have hrec : parseObjItems f (renderObj (.cons k2 v2 tl2) ++ (rbrace :: rest))
          = some (.cons k2 v2 tl2, rest) :=
        parse_renderObjItems (.cons k2 v2 tl2) f rest (fun h => JsonObj.noConfusion h) hftl
      simp only [rbrace] at hpv hrec
      simp [parseStringBody_escapeList, skipWs_cons, isJsonWs, rbrace, hpv, hrec]
  termination_by fs => sizeOf fs
end

mutual
theorem needJson_le_length : (j : Json) → needJson j ≤ (renderJson j).length
  | .str s => by
    rw [show renderJson (.str s) = '"' :: (escapeList s.data ++ ['"']) from by
      rw [renderJson, renderString]]
    simp only [needJson, List.length_cons, List.length_append]
    omega
  | .arr .nil => by
    rw [show renderJson (.arr .nil) = '[' :: ([] ++ [']']) from by rw [renderJson, renderArr]]
    simp only [needJson, needArr, List.nil_append, List.length_cons, List.length_singleton]
    omega
  | .arr (.cons j tl) => by
    have hb := needArr_le_length (.cons j tl)
    rw [show renderJson (.arr (.cons j tl)) = '[' :: (renderArr (.cons j tl) ++ [']'])
      from by rw [renderJson]]
    simp only [needJson, List.length_cons, List.length_append, List.length_singleton]
    omega
  | .obj .nil => by
    rw [show renderJson (.obj .nil) = lbrace :: ([] ++ [rbrace]) from by
      rw [renderJson, renderObj]]
    simp only [needJson, needObj, List.nil_append, List.length_cons, List.length_singleton]
    omega
  | .obj (.cons k v tl) => by
    have hb := needObj_le_length (.cons k v tl)
    rw [show renderJson (.obj (.cons k v tl)) = lbrace :: (renderObj (.cons k v tl) ++ [rbrace])
      from by rw [renderJson]]
    simp only [needJson, List.length_cons, List.length_append, List.length_singleton]
    omega
  termination_by j => sizeOf j

theorem needArr_le_length : (xs : JsonArr) → needArr xs ≤ (renderArr xs).length + 1
  | .nil => by
    simp [needArr]
  | .cons j .nil => by
    have ha := needJson_le_length j
    rw [show renderArr (.cons j .nil) = renderJson j from by rw [renderArr]]
    simp only [needArr]
    omega
  | .cons j (.cons j2 tl2) => by
    have ha := needJson_le_length j
    have hb := needArr_le_length (.cons j2 tl2)
    rw [renderArr_cons_cons j j2 tl2]
    simp only [needArr, List.length_append, List.length_cons] at *
    omega
  termination_by xs => sizeOf xs

theorem needObj_le_length : (fs : JsonObj) → needObj fs ≤ (renderObj fs).length + 1
  | .nil => by
    simp [needObj]
  | .cons k v .nil => by
    have ha := needJson_le_length v
    rw [show renderObj (.cons k v .nil) = renderString k ++ (':' :: renderJson v) from by
      rw [renderObj]]
    simp only [needObj, List.length_append, List.length_cons]
    omega
  | .cons k v (.cons k2 v2 tl2) => by
    have ha := needJson_le_length v
    have hb := needObj_le_length (.cons k2 v2 tl2)
    rw [renderObj_cons_cons k v k2 v2 tl2]
    simp only [needObj, List.length_append, List.length_cons] at *
    omega
  termination_by fs => sizeOf fs
end

theorem jsonParse_render (j : Json) : jsonParse ⟨renderJson j⟩ = some j := by
  have h := parse_renderJson j ((renderJson j).length + 1) []
    (by have := needJson_le_length j; omega)
  rw [List.append_nil] at h
  show (match parseValue ((renderJson j).length + 1) (renderJson j) with
    | some (j, rest) =>
      match skipWs rest with
      | [] => some j
      | _ => none
    | none => none) = some j
  rw [h]
  rfl

theorem candsOfJson_toJson : ∀ cs : List IceCandidate, candsOfJson (candsToJson cs) = some cs
  | [] => rfl
  | c :: cs => by
    have ih := candsOfJson_toJson cs
    simp [candsToJson, candsOfJson, candOfJson, candToJson, objLookup, ih]

theorem payloadOfJson_toJson (p : SessionPayload) : payloadOfJson (payloadToJson p) = some p := by
  obtain ⟨⟨t, s⟩, cs⟩ := p
  simp [payloadToJson, payloadOfJson, sessionToJson, sessionOfJson, objLookup,
    candsOfJson_toJson]

/-- A character representable in a Latin-1 (binary) JavaScript string, the
domain btoa accepts. -/
def latin1Char (c : Char) : Bool := c.toNat < 256

def latin1Str (s : String) : Bool := s.data.all latin1Char

/-- All strings of a payload are Latin-1 representable; valid SDP and ICE
candidate strings are ASCII, hence satisfy this. -/
def latin1Payload (p : SessionPayload) : Bool :=
  latin1Str p.session.stype && latin1Str p.session.sdp &&
    p.iceCandidates.all (fun c => latin1Str c.candidate)

mutual
def jsonLatin1 : Json → Bool
  | .str s => latin1Str s
  | .arr xs => arrLatin1 xs
  | .obj fs => objLatin1 fs
def arrLatin1 : JsonArr → Bool
  | .nil => true
  | .cons j tl => jsonLatin1 j && arrLatin1 tl
def objLatin1 : JsonObj → Bool
  | .nil => true
  | .cons k v tl => latin1Str k && jsonLatin1 v && objLatin1 tl
end

theorem latin1_hexDigitChar (n : Nat) : latin1Char (hexDigitChar n) = true := by
  by_cases h : n < 16
  · exact (by decide : ∀ m, m < 16 → latin1Char (hexDigitChar m) = true) n h
  · have hle : ("0123456789abcdef".data).length ≤ n := by
      have : ("0123456789abcdef".data).length = 16 := by decide
      omega
    rw [show hexDigitChar n = '0' from List.getD_eq_default _ _ hle]
    decide

theorem latin1_escapeChar (c : Char) (h : latin1Char c = true) :
    (escapeChar c).all latin1Char = true := by
  by_cases hq : c = '"'
  · simp [escapeChar, latin1Char, hq]
  · by_cases hb : c = '\\'
    · simp [escapeChar, latin1Char, hq, hb]
    · by_cases hc : c.toNat < 32
      · by_cases h8 : c.toNat = 8
        · simp [escapeChar, latin1Char, hq, hb, hc, h8]
        · by_cases h9 : c.toNat = 9
          · simp [escapeChar, latin1Char, hq, hb, hc, h8, h9]
          · by_cases h10 : c.toNat = 10
            · simp [escapeChar, latin1Char, hq, hb, hc, h8, h9, h10]
            · by_cases h12 : c.toNat = 12
              · simp [escapeChar, latin1Char, hq, hb, hc, h8, h9, h10, h12]
              · by_cases h13 : c.toNat = 13
                · simp [escapeChar, latin1Char, hq, hb, hc, h8, h9, h10, h12, h13]
                · simp only [escapeChar, if_neg hq, if_neg hb, if_pos hc, if_neg h8,
                    if_neg h9, if_neg h10, if_neg h12, if_neg h13]
                  simp [latin1_hexDigitChar, (by decide : latin1Char '\\' = true),
                    (by decide : latin1Char 'u' = true), (by decide : latin1Char '0' = true)]
      · simp [escapeChar, hq, hb, hc, h]

theorem latin1_escapeList :
    ∀ l : List Char, l.all latin1Char = true → (escapeList l).all latin1Char = true
  | [], _ => rfl
  | c :: cs, h => by
    have h1 : latin1Char c = true := by
      simp only [List.all_cons, Bool.and_eq_true] at h
      exact h.1
    have h2 : cs.all latin1Char = true := by
      simp only [List.all_cons, Bool.and_eq_true] at h
      exact h.2
    simp [escapeList, List.all_append, latin1_escapeChar c h1, latin1_escapeList cs h2]

theorem latin1_renderString (s : String) (h : latin1Str s = true) :
    (renderString s).all latin1Char = true := by
  simp [renderString, List.all_append, latin1_escapeList s.data h]
  decide

mutual
theorem latin1_renderJson : (j : Json) → jsonLatin1 j = true →
    (renderJson j).all latin1Char = true
  | .str s, h => by
    rw [show renderJson (.str s) = renderString s from by rw [renderJson]]
    exact latin1_renderString s (by simpa [jsonLatin1] using h)
  | .arr xs, h => by
    rw [show renderJson (.arr xs) = '[' :: (renderArr xs ++ [']']) from by rw [renderJson]]
    have := latin1_renderArr xs (by simpa [jsonLatin1] using h)
    simp [List.all_append, this]
    decide
  | .obj fs, h => by
    rw [show renderJson (.obj fs) = lbrace :: (renderObj fs ++ [rbrace]) from by
      rw [renderJson]]
    have := latin1_renderObj fs (by simpa [jsonLatin1] using h)
    simp [List.all_append, this]
    decide
  termination_by j => sizeOf j

theorem latin1_renderArr : (xs : JsonArr) → arrLatin1 xs = true →
    (renderArr xs).all latin1Char = true
  | .nil, _ => rfl
  | .cons j .nil, h => by
    rw [show renderArr (.cons j .nil) = renderJson j from by rw [renderArr]]
    exact latin1_renderJson j (by simp only [arrLatin1, Bool.and_eq_true] at h; exact h.1)
  | .cons j (.cons j2 tl2), h => by
    simp only [arrLatin1, Bool.and_eq_true] at h
    rw [renderArr_cons_cons j j2 tl2]
    have h1 := latin1_renderJson j h.1
    have h2 := latin1_renderArr (.cons j2 tl2) (by simp [arrLatin1, h.2.1, h.2.2])
    simp [List.all_append, h1, h2]
    decide
  termination_by xs => sizeOf xs

theorem latin1_renderObj : (fs : JsonObj) → objLatin1 fs = true →
    (renderObj fs).all latin1Char = true
  | .nil, _ => rfl
  | .cons k v .nil, h => by
    simp only [objLatin1, Bool.and_eq_true] at h
    rw [show renderObj (.cons k v .nil) = renderString k ++ (':' :: renderJson v) from by
      rw [renderObj]]
    have h1 := latin1_renderString k h.1.1
    have h2 := latin1_renderJson v h.1.2
    simp [List.all_append, h1, h2]
    decide
  | .cons k v (.cons k2 v2 tl2), h => by
    simp only [objLatin1, Bool.and_eq_true] at h
    rw [renderObj_cons_cons k v k2 v2 tl2]
    have h1 := latin1_renderString k h.1.1
    have h2 := latin1_renderJson v h.1.2
    have h3 := latin1_renderObj (.cons k2 v2 tl2)
      (by simp [objLatin1, h.2.1.1, h.2.1.2, h.2.2])
    simp [List.all_append, h1, h2, h3]
    decide
  termination_by fs => sizeOf fs
end

theorem latin1_payloadToJson (p : SessionPayload) (h : latin1Payload p = true) :
    jsonLatin1 (payloadToJson p) = true := by
  obtain ⟨⟨t, s⟩, cs⟩ := p
  simp only [latin1Payload, Bool.and_eq_true] at h
  have hcs : ∀ cs' : List IceCandidate,
      cs'.all (fun c => latin1Str c.candidate) = true →
      arrLatin1 (candsToJson cs') = true := by
    intro cs'
    induction cs' with
    | nil => intro _; rfl
    | cons c cs'' ih =>
      intro hall
      simp only [List.all_cons, Bool.and_eq_true] at hall
      simp [candsToJson, arrLatin1, candToJson, jsonLatin1, objLatin1, hall.1,
        ih hall.2]
      decide
  simp [payloadToJson, jsonLatin1, objLatin1, sessionToJson, h.1.1, h.1.2,
    hcs cs h.2]
  decide

/-- C2 counterexample: for a session description whose sdp contains a character
above the Latin-1 range, createSessionPayload's packaging throws inside btoa
(InvalidCharacterError), so no encoded payload exists to decode: the claimed
round trip fails at this input. -/
theorem claim_C2_roundtrip_cex :
    ¬ ∃ e, encodePayload ⟨⟨"offer", "€"⟩, []⟩ = some e ∧
      parseSessionPayload e = some ⟨⟨"offer", "€"⟩, []⟩ := by
  rintro ⟨e, he, -⟩
  rw [show encodePayload ⟨⟨"offer", "€"⟩, []⟩ = none from by decide] at he
  exact Option.noConfusion he

/-- C2 amended: for every payload whose strings are Latin-1 representable (in
particular every valid ASCII SDP and candidate set), the base64-of-JSON
encoding produced by createSessionPayload's packaging exists and
parseSessionPayload decodes it to exactly the original payload. -/
theorem claim_C2_roundtrip (p : SessionPayload) (h : latin1Payload p = true) :
    ∃ e, encodePayload p = some e ∧ parseSessionPayload e = some p := by
  have hall : (renderJson (payloadToJson p)).all latin1Char = true :=
    latin1_renderJson (payloadToJson p) (latin1_payloadToJson p h)
  obtain ⟨t, hb, ha⟩ := atob_btoa ⟨renderJson (payloadToJson p)⟩
    (by simpa [latin1Char] using hall)
  refine ⟨t, ?_, ?_⟩
  · rw [encodePayload]
    exact hb
  · simp only [parseSessionPayload, ha, jsonParse_render, payloadOfJson_toJson]

/-- C2 witness: a concrete ASCII payload round-trips exactly. -/
theorem claim_C2_roundtrip_witness :
    latin1Payload ⟨⟨"offer", "v=0"⟩, [⟨"cand"⟩]⟩ = true ∧
    ∃ e, encodePayload ⟨⟨"offer", "v=0"⟩, [⟨"cand"⟩]⟩ = some e ∧
      parseSessionPayload e = some ⟨⟨"offer", "v=0"⟩, [⟨"cand"⟩]⟩ :=
  ⟨by decide, claim_C2_roundtrip ⟨⟨"offer", "v=0"⟩, [⟨"cand"⟩]⟩ (by decide)⟩

/-- C5 counterexample: joinSession on a malformed payload fails with an
explicit DecodeError, but no visible message is appended to the messenger log
(the display is untouched), contradicting the claim that the error is surfaced
to the user as a visible message. -/
theorem claim_C5_decode_error_cex :
    joinSession initController ⟨⟨"answer", ""⟩, fun _ => true, []⟩ "" =
      .error .decodeError initController [] ∧
    (joinSession initController ⟨⟨"answer", ""⟩, fun _ => true, []⟩ "").resultState.messages
      = ([] : List String) :=
  ⟨by decide, by decide⟩

/-- C5 amended: on a malformed or non-JSON payload, joinSession fails with an
explicit DecodeError before any peer-connection call or display output; the
error propagates to the caller (an unhandled rejection, visible only in the
console) and is never silently swallowed, but no message is shown in the
messenger log and the controller state is unchanged. -/
theorem claim_C5_decode_error (st : ControllerState) (env : JoinEnv) (s : String)
    (h : parseSessionPayload s = none) :
    joinSession st env s = .error .decodeError st [] ∧
    (joinSession st env s).resultState.messages = st.messages := by
  refine ⟨by simp [joinSession, h], ?_⟩
  simp [joinSession, h, FlowResult.resultState]

theorem claim_C5_decode_error_witness :
    joinSession initController ⟨⟨"offer", "x"⟩, fun _ => true, []⟩ "not base64!" =
      .error .decodeError initController [] ∧
    (joinSession initController ⟨⟨"offer", "x"⟩, fun _ => true, []⟩ "not base64!").resultState.messages
      = initController.messages :=
  claim_C5_decode_error initController ⟨⟨"offer", "x"⟩, fun _ => true, []⟩ "not base64!"
    (by decide)

/-- C7: after the remote description is set, an addIceCandidate call is issued
for every contained candidate (the whole batch is started concurrently, none
is skipped); if any single application fails, the joint wait rejects and the
join fails with an IceApplicationError, while the candidates that succeeded
remain applied to the peer connection (no rollback), and no further calls
(createAnswer, setLocalDescription) are issued. -/
theorem claim_C7_ice_application (st : ControllerState) (env : JoinEnv)
    (payload : String) (pl : SessionPayload)
    (h : parseSessionPayload payload = some pl)
    (hfail : pl.iceCandidates.all env.addResults = false) :
    joinSession st env payload = .error .iceApplicationError
      { showMessage st ("joining: " ++ pl.session.sdp) with
          pcAddedCandidates := st.pcAddedCandidates ++ pl.iceCandidates.filter env.addResults }
      (PCCall.setRemoteDescription pl.session ::
        pl.iceCandidates.map PCCall.addIceCandidate) := by
  simp [joinSession, h, hfail, showMessage]

theorem claim_C7_ice_application_witness :
    joinSession initController
      ⟨⟨"answer", "a"⟩, fun c => c.candidate == "g", []⟩
      "eyJzZXNzaW9uIjp7InR5cGUiOiJvZmZlciIsInNkcCI6Im8ifSwiaWNlQ2FuZGlkYXRlcyI6W3siY2FuZGlkYXRlIjoiZyJ9LHsiY2FuZGlkYXRlIjoiYmFkIn1dfQ=="
      = .error .iceApplicationError
      { showMessage initController
          ("joining: " ++ (⟨⟨"offer", "o"⟩, [⟨"g"⟩, ⟨"bad"⟩]⟩ : SessionPayload).session.sdp) with
          pcAddedCandidates := initController.pcAddedCandidates ++
            (⟨⟨"offer", "o"⟩, [⟨"g"⟩, ⟨"bad"⟩]⟩ : SessionPayload).iceCandidates.filter
              (fun c => c.candidate == "g") }
      (PCCall.setRemoteDescription (⟨⟨"offer", "o"⟩, [⟨"g"⟩, ⟨"bad"⟩]⟩ : SessionPayload).session ::
        (⟨⟨"offer", "o"⟩, [⟨"g"⟩, ⟨"bad"⟩]⟩ : SessionPayload).iceCandidates.map
          PCCall.addIceCandidate) :=
  claim_C7_ice_application initController
    ⟨⟨"answer", "a"⟩, fun c => c.candidate == "g", []⟩
    "eyJzZXNzaW9uIjp7InR5cGUiOiJvZmZlciIsInNkcCI6Im8ifSwiaWNlQ2FuZGlkYXRlcyI6W3siY2FuZGlkYXRlIjoiZyJ9LHsiY2FuZGlkYXRlIjoiYmFkIn1dfQ=="
    ⟨⟨"offer", "o"⟩, [⟨"g"⟩, ⟨"bad"⟩]⟩ (by decide) (by decide)

/-- C3: joinSession on a payload whose decoded session type is "answer"
reports completion to the display and issues no createAnswer and no further
payload; on a payload whose decoded session type is "offer" it synthesizes an
answer with ICE restart requested, sets it as the local description, and
(once gathering completes and encoding succeeds) surfaces the new encoded
payload as the reply. -/
theorem claim_C3_join_branches
    (stA stO : ControllerState) (envA envO : JoinEnv) (pa po : String)
    (plA plO : SessionPayload)
    (hA : parseSessionPayload pa = some plA)
    (hAt : plA.session.stype = "answer")
    (hAok : plA.iceCandidates.all envA.addResults = true)
    (hO : parseSessionPayload po = some plO)
    (hOt : plO.session.stype = "offer")
    (hOok : plO.iceCandidates.all envO.addResults = true)
    (hdone : (waitForIceCandidates stO.gatheringState stO.iceCandidates envO.events).done = true)
    (pO : String)
    (henc : encodePayload ⟨envO.answer,
      (waitForIceCandidates stO.gatheringState stO.iceCandidates envO.events).buf⟩ = some pO) :
    joinSession stA envA pa = .ok
      (showMessage
        { showMessage stA ("joining: " ++ plA.session.sdp) with
            pcAddedCandidates := stA.pcAddedCandidates ++
              plA.iceCandidates.filter envA.addResults }
        "Finished session setup!")
      (PCCall.setRemoteDescription plA.session ::
        plA.iceCandidates.map PCCall.addIceCandidate) ∧
    joinSession stO envO po = .ok
      (showMessage
        { showMessage stO ("joining: " ++ plO.session.sdp) with
            pcAddedCandidates := stO.pcAddedCandidates ++
              plO.iceCandidates.filter envO.addResults
            gatheringState :=
              (waitForIceCandidates stO.gatheringState stO.iceCandidates envO.events).state
            iceCandidates :=
              (waitForIceCandidates stO.gatheringState stO.iceCandidates envO.events).buf }
        ("Answer: " ++ pO))
      ((PCCall.setRemoteDescription plO.session ::
        plO.iceCandidates.map PCCall.addIceCandidate) ++
        [PCCall.createAnswer true, PCCall.setLocalDescription envO.answer]) := by
  constructor
  · simp [joinSession, hA, hAok, hAt, showMessage]
  · have hne : ¬ plO.session.stype = "answer" := by
      rw [hOt]
      decide
    simp [joinSession, hO, hOok, hne, createSessionPayload, showMessage, hdone, henc]

/-- C3 witness: a concrete answer payload completes the session with no
createAnswer call, and a concrete offer payload produces the encoded answer
reply. -/
theorem claim_C3_join_branches_witness :
    joinSession initController ⟨⟨"answer", "x"⟩, fun _ => true, []⟩
      "eyJzZXNzaW9uIjp7InR5cGUiOiJhbnN3ZXIiLCJzZHAiOiJhIn0sImljZUNhbmRpZGF0ZXMiOltdfQ==" = .ok
      (showMessage
        { showMessage initController
            ("joining: " ++ (⟨⟨"answer", "a"⟩, []⟩ : SessionPayload).session.sdp) with
            pcAddedCandidates := initController.pcAddedCandidates ++
              (⟨⟨"answer", "a"⟩, []⟩ : SessionPayload).iceCandidates.filter (fun _ => true) }
        "Finished session setup!")
      (PCCall.setRemoteDescription (⟨⟨"answer", "a"⟩, []⟩ : SessionPayload).session ::
        (⟨⟨"answer", "a"⟩, []⟩ : SessionPayload).iceCandidates.map PCCall.addIceCandidate) ∧
    joinSession initController ⟨⟨"answer", "a"⟩, fun _ => true, [.stateChange .complete]⟩
      "eyJzZXNzaW9uIjp7InR5cGUiOiJvZmZlciIsInNkcCI6Im8ifSwiaWNlQ2FuZGlkYXRlcyI6W3siY2FuZGlkYXRlIjoiZyJ9XX0=" = .ok
      (showMessage
        { showMessage initController
            ("joining: " ++ (⟨⟨"offer", "o"⟩, [⟨"g"⟩]⟩ : SessionPayload).session.sdp) with
            pcAddedCandidates := initController.pcAddedCandidates ++
              (⟨⟨"offer", "o"⟩, [⟨"g"⟩]⟩ : SessionPayload).iceCandidates.filter (fun _ => true)
            gatheringState :=
              (waitForIceCandidates initController.gatheringState initController.iceCandidates
                [.stateChange .complete]).state
            iceCandidates :=
              (waitForIceCandidates initController.gatheringState initController.iceCandidates
                [.stateChange .complete]).buf }
        ("Answer: " ++
          "eyJzZXNzaW9uIjp7InR5cGUiOiJhbnN3ZXIiLCJzZHAiOiJhIn0sImljZUNhbmRpZGF0ZXMiOltdfQ=="))
      ((PCCall.setRemoteDescription (⟨⟨"offer", "o"⟩, [⟨"g"⟩]⟩ : SessionPayload).session ::
        (⟨⟨"offer", "o"⟩, [⟨"g"⟩]⟩ : SessionPayload).iceCandidates.map PCCall.addIceCandidate) ++
        [PCCall.createAnswer true, PCCall.setLocalDescription ⟨"answer", "a"⟩]) :=
  claim_C3_join_branches initController initController
    ⟨⟨"answer", "x"⟩, fun _ => true, []⟩
    ⟨⟨"answer", "a"⟩, fun _ => true, [.stateChange .complete]⟩
    "eyJzZXNzaW9uIjp7InR5cGUiOiJhbnN3ZXIiLCJzZHAiOiJhIn0sImljZUNhbmRpZGF0ZXMiOltdfQ=="
    "eyJzZXNzaW9uIjp7InR5cGUiOiJvZmZlciIsInNkcCI6Im8ifSwiaWNlQ2FuZGlkYXRlcyI6W3siY2FuZGlkYXRlIjoiZyJ9XX0="
    ⟨⟨"answer", "a"⟩, []⟩ ⟨⟨"offer", "o"⟩, [⟨"g"⟩]⟩
    (by decide) (by decide) (by decide) (by decide) (by decide) (by decide) (by decide)
    "eyJzZXNzaW9uIjp7InR5cGUiOiJhbnN3ZXIiLCJzZHAiOiJhIn0sImljZUNhbmRpZGF0ZXMiOltdfQ=="
    (by decide)
